import Mathlib

/-!
# Verification of the gzipped-XML → spreadsheet conversion utility

Shallow embedding of `src/app.py` (Job XML Converter).  The core routine
`process_gz_content` decompresses a gzip byte buffer as UTF-8 text, parses it
as XML, collects every element tagged `job` via `root.findall('.//job')`,
flattens each into a dict `{child.tag: child.text for child in job}`, builds a
`pandas.DataFrame` from the list of dicts, writes it with
`df.to_excel('jobs_output.xlsx', index=False)` and returns the path and the
record count.  The two Flask routes `convert_url` and `convert_file` wrap it:
the first fetches a URL and calls `response.raise_for_status()` first, both
return the written file via `send_file(..., as_attachment=True,
download_name='jobs.xlsx')`.
-/

set_option autoImplicit false

namespace JobConverter

/-- An XML element as used by the program: its tag name, its `.text`
attribute (`xml.etree.ElementTree`'s text before the first subelement,
`None` when absent) and its list of direct children in document order. -/
inductive Element : Type where
  | mk : String → Option String → List Element → Element
deriving Repr

/-- The tag name of an element. -/
def Element.tag : Element → String
  | .mk t _ _ => t

/-- The `.text` attribute of an element (`none` models Python's `None`). -/
def Element.text : Element → Option String
  | .mk _ x _ => x

/-- The direct children of an element, in document order. -/
def Element.children : Element → List Element
  | .mk _ _ c => c

mutual
/-- `ElementTree`'s `elem.iter(tag)`: the elements of `elem`'s subtree whose
tag equals `t`, in preorder (document) order, `elem` itself included. -/
def iterElem (t : String) : Element → List Element
  | .mk tag x ch =>
      (if tag = t then [Element.mk tag x ch] else []) ++ iterList t ch

/-- `iterElem` mapped over a sibling list and concatenated. -/
def iterList (t : String) : List Element → List Element
  | [] => []
  | e :: es => iterElem t e ++ iterList t es
end

/-- `root.findall('.//tag')`.  CPython's `ElementPath.prepare_descendant`
implements `.//tag` as `for e in elem.iter(tag): if e is not elem: yield e`,
i.e. the matching elements strictly below the root, in document order. -/
def findall_descendant (t : String) (root : Element) : List Element :=
  iterList t root.children

/-- A Python dict with `String` keys and `Optional[str]` values, as an
association list in key-insertion order. -/
abbrev Record : Type := List (String × Option String)

/-- Dict assignment `d[k] = v`: when `k` is present (keys of a dict are
unique, so at most one entry carries it) the value at the key's original
position is overwritten, as CPython dicts do; a new key is appended at the
end, preserving insertion order. -/
def dictInsert : Record → String → Option String → Record
  | [], k, v => [(k, v)]
  | (a, b) :: rest, k, v =>
      if a = k then (k, v) :: rest else (a, b) :: dictInsert rest k v

/-- Dict lookup: `some v` when key `k` is present with value `v`
(`v` is itself an `Option String` since a value may be `None`),
`none` when `k` is absent. -/
def dictGet (r : Record) (k : String) : Option (Option String) :=
  match r with
  | [] => none
  | (k', v) :: rest => if k = k' then some v else dictGet rest k

/-- The dict comprehension `{child.tag: child.text for child in job}`:
one pass over the direct children, inserting each `(tag, text)` pair. -/
def flatten_job (job : Element) : Record :=
  List.foldl (fun r c => dictInsert r c.tag c.text) [] job.children

/-- `pandas.DataFrame(list_of_dicts)` column computation: the union of all
keys across the records, in order of first appearance over the record
sequence. -/
def dataframe_columns (rs : List Record) : List String :=
  List.foldl (fun cols k => if k ∈ cols then cols else cols ++ [k]) []
    (List.flatten (List.map (fun r => List.map Prod.fst r) rs))

/-- The cell written for record `r` in column `k`: a missing key becomes
`NaN` and a `None` value stays `None`; `to_excel` renders both as a blank
cell, so both map to `none`. -/
def cellValue (r : Record) (k : String) : Option String :=
  match dictGet r k with
  | none => none
  | some v => v

/-- The spreadsheet written by `df.to_excel(output_file, index=False)`:
its header row (columns), its data rows, and whether an implicit row-index
column was emitted (`index=False` suppresses it). -/
structure Table where
  columns : List String
  rows : List (List (Option String))
  hasIndexColumn : Bool
deriving DecidableEq, Repr

/-- `pd.DataFrame(rs)` followed by `to_excel(..., index=False)`. -/
def to_excel (rs : List Record) : Table :=
  { columns := dataframe_columns rs
    rows := List.map (fun r => List.map (cellValue r) (dataframe_columns rs)) rs
    hasIndexColumn := false }

/-- The exception kinds the pipeline can raise, one constructor per Python
exception type that reaches the caller: `gzip.BadGzipFile` (and the other
decompression failures of the gzip layer) for an invalid gzip stream,
`UnicodeDecodeError` for non-UTF-8 decompressed bytes, `ET.ParseError`
for malformed XML, `requests.HTTPError` for a 4xx/5xx response. -/
inductive PyError : Type where
  | badGzipFile
  | unicodeDecodeError
  | parseError
  | httpError (status : Nat)
deriving DecidableEq, Repr

/-- The decompressed UTF-8 text, classified by whether `ET.fromstring`
accepts it: either malformed XML or a well-formed document with the given
root element. -/
inductive XmlText : Type where
  | malformed
  | wellFormed (root : Element)

/-- The input byte buffer, classified by how far the
`gzip.open(..., 'rt', encoding='utf-8').read()` stage gets on it:
not a valid gzip stream at all, a valid gzip stream whose decompressed
bytes are not valid UTF-8, or a valid gzip stream of UTF-8 text.  The
payloads of the two failing constructors stand for the arbitrary raw
bytes of such a buffer. -/
inductive GzBytes : Type where
  | notGzip (raw : List Nat)
  | gzipNonUtf8 (decompressed : List Nat)
  | gzipUtf8 (content : XmlText)

/-- `gzip.open(BytesIO(gz_data), 'rt', encoding='utf-8').read()`:
raises on an invalid gzip stream, raises `UnicodeDecodeError` on
non-UTF-8 content, otherwise returns the decoded text. -/
def gzip_read_utf8 : GzBytes → Except PyError XmlText
  | .notGzip _ => .error .badGzipFile
  | .gzipNonUtf8 _ => .error .unicodeDecodeError
  | .gzipUtf8 content => .ok content

/-- `ET.fromstring(xml_content)`: raises `ET.ParseError` on malformed
input, otherwise returns the root element of the parsed tree. -/
def et_fromstring : XmlText → Except PyError Element
  | .malformed => .error .parseError
  | .wellFormed root => .ok root

/-- Everything `process_gz_content` produces on success: the list `jobs`
of flattened records, the spreadsheet written to disk, the (returned)
output file path, and the returned `len(jobs)`. -/
structure ProcessResult where
  records : List Record
  table : Table
  output_file : String
  job_count : Nat
deriving DecidableEq, Repr

/-- `process_gz_content(gz_data)` from `src/app.py`: decompress and decode,
parse, collect `root.findall('.//job')`, flatten each match, build the
DataFrame, write it to the constant path `jobs_output.xlsx` with
`index=False`, and return the path together with `len(jobs)`. -/
def process_gz_content (gz_data : GzBytes) : Except PyError ProcessResult := do
  let xml_content ← gzip_read_utf8 gz_data
  let root ← et_fromstring xml_content
  let jobs := List.map flatten_job (findall_descendant "job" root)
  .ok { records := jobs
        table := to_excel jobs
        output_file := "jobs_output.xlsx"
        job_count := jobs.length }

/-- `response.raise_for_status()` from the `requests` library: raises
`requests.HTTPError` exactly when `400 <= status_code < 600`, and is a
no-op for every other status code. -/
def raise_for_status (status : Nat) : Except PyError Unit :=
  if 400 ≤ status ∧ status < 600 then .error (.httpError status) else .ok ()

/-- The observable part of Flask's `send_file(output_file,
as_attachment=True, download_name='jobs.xlsx')` call: which on-disk path
is served and under which suggested download filename. -/
structure SendFileResponse where
  path : String
  as_attachment : Bool
  download_name : String
deriving DecidableEq, Repr

/-- The `/convert-url` route: fetch the URL (the response arrives with
`status` and byte body `body`), `raise_for_status`, run
`process_gz_content` on the body, and serve the written file as
`jobs.xlsx`. -/
def convert_url (status : Nat) (body : GzBytes) :
    Except PyError (SendFileResponse × Nat) := do
  raise_for_status status
  let r ← process_gz_content body
  .ok (⟨r.output_file, true, "jobs.xlsx"⟩, r.job_count)

/-- The `/convert-file` route: read the uploaded bytes, run
`process_gz_content`, and serve the written file as `jobs.xlsx`. -/
def convert_file (gz_data : GzBytes) :
    Except PyError (SendFileResponse × Nat) := do
  let r ← process_gz_content gz_data
  .ok (⟨r.output_file, true, "jobs.xlsx"⟩, r.job_count)

/-! ## Specification-side definitions

Independent formulations of the spec's vocabulary ("elements tagged `job` at
any depth, in document order", "union of keys in order of first appearance"),
to be related to the embedded code by refinement lemmas. -/

@[simp] theorem Element.tag_mk (t : String) (x : Option String) (ch : List Element) :
    (Element.mk t x ch).tag = t := rfl

@[simp] theorem Element.text_mk (t : String) (x : Option String) (ch : List Element) :
    (Element.mk t x ch).text = x := rfl

@[simp] theorem Element.children_mk (t : String) (x : Option String) (ch : List Element) :
    (Element.mk t x ch).children = ch := rfl

mutual
/-- The subtree of an element listed in document (preorder) order. -/
def preorder : Element → List Element
  | .mk t x ch => Element.mk t x ch :: preorderList ch

/-- `preorder` mapped over a sibling list and concatenated. -/
def preorderList : List Element → List Element
  | [] => []
  | e :: es => preorder e ++ preorderList es
end

/-- The elements of the document tagged `job`, at any depth (the root
included), in document order. -/
def docOrderJobs (root : Element) : List Element :=
  List.filter (fun e => e.tag == "job") (preorder root)

/-- The proper-descendant elements of the root tagged `job`, in document
order. -/
def descendantJobs (root : Element) : List Element :=
  List.filter (fun e => e.tag == "job") (preorderList root.children)

mutual
theorem iterElem_eq_preorder_filter (t : String) : ∀ e : Element,
    iterElem t e = List.filter (fun d => d.tag == t) (preorder e)
  | .mk tag x ch => by
      rw [iterElem, preorder, iterList_eq_preorder_filter t ch]
      by_cases h : tag = t <;> simp [h, List.filter_cons]

theorem iterList_eq_preorder_filter (t : String) : ∀ es : List Element,
    iterList t es = List.filter (fun d => d.tag == t) (preorderList es)
  | [] => by rw [iterList, preorderList]; rfl
  | e :: es => by
      rw [iterList, preorderList, List.filter_append,
        iterElem_eq_preorder_filter t e, iterList_eq_preorder_filter t es]
end

/-- `findall('.//job')` returns exactly the proper-descendant elements of
the root tagged `job`, in document order. -/
theorem findall_descendant_job_eq (root : Element) :
    findall_descendant "job" root = descendantJobs root :=
  iterList_eq_preorder_filter "job" root.children

/-! ## Dict lemmas -/

@[simp] theorem dictGet_nil (k : String) : dictGet [] k = none := rfl

@[simp] theorem dictGet_cons (a : String) (b : Option String) (rest : Record)
    (k' : String) :
    dictGet ((a, b) :: rest) k' = if k' = a then some b else dictGet rest k' := rfl

theorem dictGet_dictInsert (r : Record) (k : String) (v : Option String) (k' : String) :
    dictGet (dictInsert r k v) k' = if k' = k then some v else dictGet r k' := by
  induction r with
  | nil =>
      by_cases h : k' = k <;> simp [dictInsert, h]
  | cons p rest ih =>
      obtain ⟨a, b⟩ := p
      by_cases ha : a = k
      · simp only [dictInsert, if_pos ha]
        subst ha
        by_cases hk : k' = a <;> simp [hk]
      · simp only [dictInsert, if_neg ha]
        by_cases hk : k' = a
        · have hkk : k' ≠ k := fun h => ha (hk.symm.trans h)
          simp [hk, hkk, ha]
        · simp [hk, ih]

/-- The value a left fold of dict assignments leaves under key `k`: the text
of the last entry for `k`, or whatever the accumulator held. -/
theorem dictGet_foldl_insert (cs : List Element) : ∀ (r : Record) (k : String),
    dictGet (List.foldl (fun r c => dictInsert r c.tag c.text) r cs) k
      = Option.elim (List.getLast? (List.filter (fun c => c.tag == k) cs))
          (dictGet r k) (fun c => some c.text) := by
  induction cs with
  | nil => intro r k; rfl
  | cons c cs ih =>
      intro r k
      rw [List.foldl_cons, ih]
      by_cases htag : c.tag = k
      · rw [List.filter_cons_of_pos (by simp [htag])]
        cases hlast : List.getLast? (List.filter (fun c => c.tag == k) cs) with
        | none =>
            have hnil : List.filter (fun c => c.tag == k) cs = [] :=
              List.getLast?_eq_none_iff.mp hlast
            rw [hnil]
            simp [dictGet_dictInsert, htag]
        | some d =>
            have hcons : List.getLast? (c :: List.filter (fun c => c.tag == k) cs)
                = some d := by
              cases hfil : List.filter (fun c => c.tag == k) cs with
              | nil => rw [hfil] at hlast; exact absurd hlast (by simp)
              | cons e es => rw [List.getLast?_cons_cons, ← hfil, hlast]
            rw [hcons]
            simp
      · rw [List.filter_cons_of_neg (by simp [htag])]
        cases hlast : List.getLast? (List.filter (fun c => c.tag == k) cs) with
        | none => simp [hlast, dictGet_dictInsert, Ne.symm htag]
        | some d => simp [hlast]

/-- `flatten_job` looked up at `k` is the `.text` of the last direct child
tagged `k`, when there is one. -/
theorem flatten_job_lookup (job : Element) (k : String) :
    dictGet (flatten_job job) k
      = Option.map Element.text
          (List.getLast? (List.filter (fun c => c.tag == k) job.children)) := by
  rw [flatten_job, dictGet_foldl_insert]
  cases List.getLast? (List.filter (fun c => c.tag == k) job.children) <;> rfl

/-! ## Column-union lemmas -/

/-- Specification-side formulation of the column order: the keys of a key
stream, each kept at its first occurrence. -/
def firstOccurrences : List String → List String
  | [] => []
  | k :: ks => k :: firstOccurrences (List.filter (fun k2 => !(k2 == k)) ks)
termination_by l => l.length
decreasing_by
  simp only [List.length_cons]
  exact Nat.lt_succ_of_le (List.length_filter_le _ _)

theorem firstOccurrences_cons (k : String) (ks : List String) :
    firstOccurrences (k :: ks)
      = k :: firstOccurrences (List.filter (fun k2 => !(k2 == k)) ks) := by
  rw [firstOccurrences]

/-- Every key of every record, in record order then key order: the stream
of keys `pandas` sees when computing the DataFrame columns. -/
def allKeys (rs : List Record) : List String :=
  List.flatten (List.map (fun r => List.map Prod.fst r) rs)

theorem foldl_union_eq (ks : List String) : ∀ acc : List String,
    List.foldl (fun cols k => if k ∈ cols then cols else cols ++ [k]) acc ks
      = acc ++ firstOccurrences (List.filter (fun k => decide (k ∉ acc)) ks) := by
  induction ks with
  | nil => intro acc; simp [firstOccurrences]
  | cons k ks ih =>
      intro acc
      rw [List.foldl_cons]
      by_cases hk : k ∈ acc
      · rw [if_pos hk, ih, List.filter_cons_of_neg (by simp [hk])]
      · rw [if_neg hk, ih, List.filter_cons_of_pos (by simp [hk]),
          firstOccurrences_cons, List.filter_filter, List.append_assoc,
          List.singleton_append]
        congr 2
        refine congrArg firstOccurrences ?_
        apply List.filter_congr
        intro a _
        by_cases h1 : a ∈ acc <;> by_cases h2 : a = k <;>
          simp [h1, h2, List.mem_append]

/-- The DataFrame columns are the union of all record keys in order of
first appearance across the record sequence. -/
theorem dataframe_columns_eq_firstOccurrences (rs : List Record) :
    dataframe_columns rs = firstOccurrences (allKeys rs) := by
  rw [dataframe_columns, foldl_union_eq, List.nil_append]
  congr 1
  have : ∀ l : List String, List.filter (fun k => decide (k ∉ ([] : List String))) l = l := by
    intro l
    induction l with
    | nil => rfl
    | cons a l ih => rw [List.filter_cons_of_pos (by simp), ih]
  exact this _

/-! ## Shared-output-file model

Each request performs two filesystem steps on the single shared path
`jobs_output.xlsx`: `df.to_excel(output_file, index=False)` inside
`process_gz_content`, then `send_file(output_file, ...)` in the route,
which reads whatever the file holds at that moment.  Two in-flight
requests A and B therefore interleave four steps on one shared cell. -/

/-- The spreadsheet `process_gz_content` writes to `jobs_output.xlsx` for
a given input (`none` when it raises instead of writing). -/
def writtenTable (gz : GzBytes) : Option Table :=
  match process_gz_content gz with
  | .ok r => some r.table
  | .error _ => none

/-- The shared cell `jobs_output.xlsx` plus what each of the two callers
has been served so far. -/
structure SharedState where
  file : Option Table
  respA : Option Table
  respB : Option Table
deriving DecidableEq, Repr

/-- One filesystem step of one of the two in-flight requests: its
`to_excel` write or its `send_file` read. -/
inductive ConvStep : Type where
  | writeA | sendA | writeB | sendB

/-- Effect of a single step on the shared state. -/
def convStep (gzA gzB : GzBytes) (s : SharedState) : ConvStep → SharedState
  | .writeA => { s with file := writtenTable gzA }
  | .sendA => { s with respA := s.file }
  | .writeB => { s with file := writtenTable gzB }
  | .sendB => { s with respB := s.file }

/-- Run an interleaving of the two requests' steps from the initial state. -/
def runConversions (gzA gzB : GzBytes) (sched : List ConvStep) : SharedState :=
  List.foldl (convStep gzA gzB) ⟨none, none, none⟩ sched

/-! ## Sample documents -/

/-- `<jobs><job><title>Engineer</title><location>Berlin</location></job>
<department><job><title>Cook</title><salary>9</salary></job></department>
</jobs>`: two `job` elements at different depths. -/
def sampleRoot : Element :=
  .mk "jobs" none
    [ .mk "job" none
        [ .mk "title" (some "Engineer") [], .mk "location" (some "Berlin") [] ],
      .mk "department" none
        [ .mk "job" none
            [ .mk "title" (some "Cook") [], .mk "salary" (some "9") [] ] ] ]

/-- `<job/>`: a document whose root element itself is tagged `job`. -/
def jobRootDoc : Element := .mk "job" none []

/-- `<jobs><notice>none today</notice></jobs>`: well-formed,
zero `job` elements anywhere. -/
def noJobsDoc : Element :=
  .mk "jobs" none [.mk "notice" (some "none today") []]

/-- `<jobs><job><salary>10</salary><salary>20</salary></job></jobs>`:
a job with a repeated child tag. -/
def dupSalaryDoc : Element :=
  .mk "jobs" none
    [ .mk "job" none
        [ .mk "salary" (some "10") [], .mk "salary" (some "20") [] ] ]

/-! ## Supporting lemmas for the claims -/

theorem getLast?_mem {α : Type} {l : List α} {a : α} (h : l.getLast? = some a) :
    a ∈ l := by
  have hx := List.mem_getLast?_eq_getLast (l := l) (x := a) (by simp [Option.mem_def, h])
  obtain ⟨hne, rfl⟩ := hx
  exact List.getLast_mem hne

theorem isSome_map_text (o : Option Element) :
    (Option.map Element.text o).isSome = o.isSome := by
  cases o <;> rfl

theorem dictInsert_cons_self (a : String) (b v : Option String) (rest : Record) :
    dictInsert ((a, b) :: rest) a v = (a, v) :: rest := by
  rw [dictInsert, if_pos rfl]

theorem dictInsert_cons_ne (a : String) (b : Option String) (rest : Record)
    (k : String) (v : Option String) (ha : a ≠ k) :
    dictInsert ((a, b) :: rest) k v = (a, b) :: dictInsert rest k v := by
  rw [dictInsert, if_neg ha]

theorem mem_keys_dictInsert (r : Record) (k : String) (v : Option String) (x : String) :
    x ∈ List.map Prod.fst (dictInsert r k v) ↔ x ∈ List.map Prod.fst r ∨ x = k := by
  induction r with
  | nil => simp [dictInsert]
  | cons p rest ih =>
      obtain ⟨a, b⟩ := p
      by_cases ha : a = k
      · subst ha
        rw [dictInsert_cons_self]
        simp only [List.map_cons, List.mem_cons]
        tauto
      · rw [dictInsert_cons_ne a b rest k v ha]
        simp only [List.map_cons, List.mem_cons, ih]
        tauto

theorem keys_nodup_dictInsert (r : Record) (k : String) (v : Option String)
    (h : (List.map Prod.fst r).Nodup) :
    (List.map Prod.fst (dictInsert r k v)).Nodup := by
  induction r with
  | nil => simp [dictInsert]
  | cons p rest ih =>
      obtain ⟨a, b⟩ := p
      simp only [List.map_cons, List.nodup_cons] at h
      obtain ⟨hna, hrest⟩ := h
      by_cases ha : a = k
      · subst ha
        rw [dictInsert_cons_self]
        simp only [List.map_cons, List.nodup_cons]
        exact ⟨hna, hrest⟩
      · rw [dictInsert_cons_ne a b rest k v ha]
        simp only [List.map_cons, List.nodup_cons]
        refine ⟨?_, ih hrest⟩
        rw [mem_keys_dictInsert]
        rintro (h1 | rfl)
        · exact hna h1
        · exact ha rfl

theorem flatten_job_keys_nodup (job : Element) :
    (List.map Prod.fst (flatten_job job)).Nodup := by
  rw [flatten_job]
  have hgen : ∀ (cs : List Element) (r : Record), (List.map Prod.fst r).Nodup →
      (List.map Prod.fst (List.foldl (fun r c => dictInsert r c.tag c.text) r cs)).Nodup := by
    intro cs
    induction cs with
    | nil => intro r h; exact h
    | cons c cs ih =>
        intro r h
        exact ih _ (keys_nodup_dictInsert _ _ _ h)
  exact hgen job.children [] (by simp)

/-- A successful run of `process_gz_content` always reports the constant
output path `jobs_output.xlsx`. -/
theorem process_ok_output_file (gz : GzBytes) (r : ProcessResult)
    (h : process_gz_content gz = Except.ok r) : r.output_file = "jobs_output.xlsx" := by
  cases gz with
  | notGzip raw => exact Except.noConfusion h
  | gzipNonUtf8 raw => exact Except.noConfusion h
  | gzipUtf8 content =>
      cases content with
      | malformed => exact Except.noConfusion h
      | wellFormed root =>
          injection h with h'
          rw [← h']

/-! ## The claims -/

/-- Claim C1 (counterexample): the claim counts `job` elements at any depth,
root included.  The document `<job/>` contains one element tagged `job`
(at depth 0), yet extraction yields zero records and a count of 0, not 1:
`root.findall('.//job')` never matches the root element itself. -/
theorem claim1_counterexample :
    (docOrderJobs jobRootDoc).length = 1 ∧
    Except.map ProcessResult.job_count
      (process_gz_content (GzBytes.gzipUtf8 (XmlText.wellFormed jobRootDoc)))
      = Except.ok 0 ∧
    Except.map ProcessResult.job_count
      (process_gz_content (GzBytes.gzipUtf8 (XmlText.wellFormed jobRootDoc)))
      ≠ Except.ok 1 := by
  refine ⟨rfl, rfl, fun h => ?_⟩
  exact absurd (Except.ok.inj h) (by decide)

/-- Claim C1 (amended): for every well-formed input whose document contains
N elements tagged exactly `job` among the proper descendants of the root,
extraction produces exactly N records, in document order of the matched
elements, and returns N; when the root itself is not tagged `job` this is
the number of `job` elements at any depth. -/
theorem claim1_record_count_and_order (root : Element) :
    ∃ res, process_gz_content (GzBytes.gzipUtf8 (XmlText.wellFormed root))
        = Except.ok res ∧
      res.records = List.map flatten_job (descendantJobs root) ∧
      res.job_count = (descendantJobs root).length ∧
      (root.tag ≠ "job" → descendantJobs root = docOrderJobs root) := by
  refine ⟨_, rfl, ?_, ?_, ?_⟩
  · show List.map flatten_job (findall_descendant "job" root) = _
    rw [findall_descendant_job_eq]
  · show (List.map flatten_job (findall_descendant "job" root)).length = _
    rw [findall_descendant_job_eq, List.length_map]
  · intro h
    cases root with
    | mk t x ch =>
        simp only [Element.tag_mk] at h
        rw [docOrderJobs, preorder,
          List.filter_cons_of_neg (by simp [h]), descendantJobs]
        rfl

/-- Claim C1 (witness): the amended theorem applied to a concrete document
with two `job` elements at different depths. -/
theorem claim1_witness :
    ∃ res, process_gz_content (GzBytes.gzipUtf8 (XmlText.wellFormed sampleRoot))
        = Except.ok res ∧
      res.job_count = 2 ∧ descendantJobs sampleRoot = docOrderJobs sampleRoot := by
  obtain ⟨res, h1, _, h3, h4⟩ := claim1_record_count_and_order sampleRoot
  exact ⟨res, h1, by rw [h3]; rfl, h4 (by decide)⟩

/-- Claim C2: the record of a matched `job` element has as keys exactly the
tag names of its direct children; a child whose tag is unique among its
siblings contributes its `.text` verbatim (`some` text kept as-is with no
trimming or coercion, a child with no text mapping to a null value); and
the record depends only on the `(tag, text)` pairs of the direct children,
so deeper descendants contribute nothing. -/
theorem claim2_flatten_direct_children (job : Element) :
    (∀ k : String, (dictGet (flatten_job job) k).isSome = true ↔
        k ∈ List.map Element.tag job.children) ∧
    (∀ c ∈ job.children, (∀ d ∈ job.children, d.tag = c.tag → d = c) →
        dictGet (flatten_job job) c.tag = some c.text) ∧
    (∀ job2 : Element,
        List.map (fun c => (c.tag, c.text)) job.children
          = List.map (fun c => (c.tag, c.text)) job2.children →
        flatten_job job = flatten_job job2) := by
  refine ⟨fun k => ?_, fun c hc huniq => ?_, fun job2 h => ?_⟩
  · rw [flatten_job_lookup, isSome_map_text]
    rw [List.getLast?_isSome]
    constructor
    · intro hne
      obtain ⟨d, hd⟩ := List.exists_mem_of_ne_nil _ hne
      obtain ⟨hdmem, hdtag⟩ := List.mem_filter.mp hd
      exact List.mem_map.mpr ⟨d, hdmem, by simpa using hdtag⟩
    · intro hk
      obtain ⟨d, hdmem, hdtag⟩ := List.mem_map.mp hk
      exact List.ne_nil_of_mem (List.mem_filter.mpr ⟨hdmem, by simpa using hdtag⟩)
  · rw [flatten_job_lookup]
    have hcf : c ∈ List.filter (fun d => d.tag == c.tag) job.children :=
      List.mem_filter.mpr ⟨hc, by simp⟩
    have hne := List.ne_nil_of_mem hcf
    obtain ⟨d, hd⟩ := Option.isSome_iff_exists.mp (List.getLast?_isSome.mpr hne)
    obtain ⟨hdmem, hdtag⟩ := List.mem_filter.mp (getLast?_mem hd)
    have hdc : d = c := huniq d hdmem (by simpa using hdtag)
    rw [hd, hdc]
    rfl
  · have hmap : ∀ e : Element,
        flatten_job e = List.foldl (fun r p => dictInsert r p.1 p.2) []
          (List.map (fun c => (c.tag, c.text)) e.children) := by
      intro e
      rw [flatten_job, List.foldl_map]
    rw [hmap job, hmap job2, h]

/-- Claim C2 (witness): the theorem applied to a concrete job element,
giving back the verbatim text of the unique child tagged `title`. -/
theorem claim2_witness :
    dictGet (flatten_job (Element.mk "job" none
      [Element.mk "title" (some "Engineer") [],
       Element.mk "location" (some "Berlin") []])) "title"
      = some (some "Engineer") := by
  have h := (claim2_flatten_direct_children (Element.mk "job" none
      [Element.mk "title" (some "Engineer") [],
       Element.mk "location" (some "Berlin") []])).2.1
      (Element.mk "title" (some "Engineer") []) (by simp) ?_
  · exact h
  · intro d hd ht
    rcases List.mem_cons.mp hd with rfl | hd'
    · rfl
    · rcases List.mem_cons.mp hd' with rfl | hd''
      · exact absurd ht (by decide)
      · exact absurd hd'' (by simp)

/-- Claim C3: for any `job` element and any key, the record's field under
that key is exactly the `.text` of the last direct child carrying that tag
in document order (and absent when no child carries it); the record holds
one single field per tag (its key list has no duplicates); in particular a
job with children `<salary>10</salary><salary>20</salary>` yields the single
field `salary = "20"`. -/
theorem claim3_last_write_wins (job : Element) (k : String) :
    dictGet (flatten_job job) k
      = Option.map Element.text
          (List.getLast? (List.filter (fun c => c.tag == k) job.children)) ∧
    (List.map Prod.fst (flatten_job job)).Nodup ∧
    flatten_job (Element.mk "job" none
      [Element.mk "salary" (some "10") [], Element.mk "salary" (some "20") []])
      = [("salary", some "20")] :=
  ⟨flatten_job_lookup job k, flatten_job_keys_nodup job, rfl⟩

/-- Claim C4: the table serialized from any record collection has as column
sequence the union of all keys across the records in order of first
appearance, one row per record (each row listing the record's cells down
the column sequence), a blank cell wherever a record lacks a column's key,
and no implicit row-index column. -/
theorem claim4_table_shape (rs : List Record) :
    (to_excel rs).columns = firstOccurrences (allKeys rs) ∧
    (to_excel rs).rows.length = rs.length ∧
    (to_excel rs).rows
      = List.map (fun r => List.map (cellValue r) (to_excel rs).columns) rs ∧
    (∀ (r : Record) (k : String), dictGet r k = none → cellValue r k = none) ∧
    (to_excel rs).hasIndexColumn = false := by
  refine ⟨dataframe_columns_eq_firstOccurrences rs, ?_, rfl, ?_, rfl⟩
  · exact List.length_map _ _
  · intro r k h
    simp [cellValue, h]

/-- Claim C4 (witness): the theorem applied to two records with differing
key sets, giving columns title, location, salary and a blank cell for the
record lacking `location`. -/
theorem claim4_witness :
    (to_excel [[("title", some "A"), ("location", some "X")],
               [("title", some "B"), ("salary", some "9")]]).columns
      = firstOccurrences (allKeys [[("title", some "A"), ("location", some "X")],
               [("title", some "B"), ("salary", some "9")]]) ∧
    (to_excel [[("title", some "A"), ("location", some "X")],
               [("title", some "B"), ("salary", some "9")]]).columns
      = ["title", "location", "salary"] ∧
    cellValue [("title", some "B"), ("salary", some "9")] "location" = none := by
  have h := claim4_table_shape [[("title", some "A"), ("location", some "X")],
               [("title", some "B"), ("salary", some "9")]]
  exact ⟨h.1, rfl, h.2.2.2.1 _ "location" rfl⟩

/-- Claim C5: an input that is not a valid gzip stream raises the
decompression error kind (`gzip.BadGzipFile`), a valid gzip stream whose
decompressed bytes are not UTF-8 raises the encoding error kind
(`UnicodeDecodeError`), valid UTF-8 text that is not well-formed XML raises
the parse error kind (`ET.ParseError`), and the three kinds are pairwise
distinguishable. -/
theorem claim5_error_taxonomy :
    (∀ raw : List Nat, process_gz_content (GzBytes.notGzip raw)
        = Except.error PyError.badGzipFile) ∧
    (∀ raw : List Nat, process_gz_content (GzBytes.gzipNonUtf8 raw)
        = Except.error PyError.unicodeDecodeError) ∧
    process_gz_content (GzBytes.gzipUtf8 XmlText.malformed)
      = Except.error PyError.parseError ∧
    PyError.badGzipFile ≠ PyError.unicodeDecodeError ∧
    PyError.badGzipFile ≠ PyError.parseError ∧
    PyError.unicodeDecodeError ≠ PyError.parseError :=
  ⟨fun _ => rfl, fun _ => rfl, rfl, by decide, by decide, by decide⟩

/-- Claim C6: a well-formed document with zero elements tagged `job`
anywhere is not an error: extraction succeeds with an empty record list,
a table with zero rows, and a returned count of 0. -/
theorem claim6_zero_jobs (root : Element) (h : docOrderJobs root = []) :
    process_gz_content (GzBytes.gzipUtf8 (XmlText.wellFormed root))
      = Except.ok { records := [],
                    table := { columns := [], rows := [], hasIndexColumn := false },
                    output_file := "jobs_output.xlsx", job_count := 0 } := by
  have hd : descendantJobs root = [] := by
    cases root with
    | mk t x ch =>
        rw [docOrderJobs, preorder] at h
        have hall := List.filter_eq_nil_iff.mp h
        exact List.filter_eq_nil_iff.mpr fun e he =>
          hall e (List.mem_cons_of_mem _ he)
  have hf : findall_descendant "job" root = [] := by
    rw [findall_descendant_job_eq, hd]
  have hrfl : process_gz_content (GzBytes.gzipUtf8 (XmlText.wellFormed root))
      = Except.ok { records := List.map flatten_job (findall_descendant "job" root),
                    table := to_excel (List.map flatten_job (findall_descendant "job" root)),
                    output_file := "jobs_output.xlsx",
                    job_count := (List.map flatten_job (findall_descendant "job" root)).length }
      := rfl
  rw [hrfl, hf]
  rfl

/-- Claim C6 (witness): the theorem applied to a concrete job-free
document. -/
theorem claim6_witness :
    process_gz_content (GzBytes.gzipUtf8 (XmlText.wellFormed noJobsDoc))
      = Except.ok { records := [],
                    table := { columns := [], rows := [], hasIndexColumn := false },
                    output_file := "jobs_output.xlsx", job_count := 0 } :=
  claim6_zero_jobs noJobsDoc rfl

/-- Claim C7: a document whose root element is itself tagged `job` and has
no `job` descendants contains exactly one `job` element (the root, listed
by the any-depth document-order search), yet `findall('.//job')` matches
only proper descendants, so extraction yields zero records and a count
of 0. -/
theorem claim7_root_not_matched (x : Option String) (ch : List Element)
    (h : descendantJobs (Element.mk "job" x ch) = []) :
    docOrderJobs (Element.mk "job" x ch) = [Element.mk "job" x ch] ∧
    process_gz_content (GzBytes.gzipUtf8 (XmlText.wellFormed (Element.mk "job" x ch)))
      = Except.ok { records := [],
                    table := { columns := [], rows := [], hasIndexColumn := false },
                    output_file := "jobs_output.xlsx", job_count := 0 } := by
  have hd : List.filter (fun e => e.tag == "job") (preorderList ch) = [] := h
  constructor
  · rw [docOrderJobs, preorder, List.filter_cons_of_pos (by simp), hd]
  · have hf : findall_descendant "job" (Element.mk "job" x ch) = [] := by
      rw [findall_descendant_job_eq]
      exact h
    have hrfl : process_gz_content
        (GzBytes.gzipUtf8 (XmlText.wellFormed (Element.mk "job" x ch)))
        = Except.ok { records := List.map flatten_job
                        (findall_descendant "job" (Element.mk "job" x ch)),
                      table := to_excel (List.map flatten_job
                        (findall_descendant "job" (Element.mk "job" x ch))),
                      output_file := "jobs_output.xlsx",
                      job_count := (List.map flatten_job
                        (findall_descendant "job" (Element.mk "job" x ch))).length }
        := rfl
    rw [hrfl, hf]
    rfl

/-- Claim C7 (witness): the theorem applied to the concrete document
`<job/>`. -/
theorem claim7_witness :
    docOrderJobs jobRootDoc = [jobRootDoc] ∧
    process_gz_content (GzBytes.gzipUtf8 (XmlText.wellFormed jobRootDoc))
      = Except.ok { records := [],
                    table := { columns := [], rows := [], hasIndexColumn := false },
                    output_file := "jobs_output.xlsx", job_count := 0 } :=
  claim7_root_not_matched none [] rfl

/-- Claim C8: every successful conversion, from either entry point, names
the same constant on-disk path `jobs_output.xlsx` (not a per-call unique
path) and serves it as an attachment with the fixed suggested filename
`jobs.xlsx`. -/
theorem claim8_fixed_output_path :
    (∀ (status : Nat) (body : GzBytes) (resp : SendFileResponse) (n : Nat),
        convert_url status body = Except.ok (resp, n) →
          resp.path = "jobs_output.xlsx" ∧ resp.download_name = "jobs.xlsx" ∧
          resp.as_attachment = true) ∧
    (∀ (body : GzBytes) (resp : SendFileResponse) (n : Nat),
        convert_file body = Except.ok (resp, n) →
          resp.path = "jobs_output.xlsx" ∧ resp.download_name = "jobs.xlsx" ∧
          resp.as_attachment = true) := by
  constructor
  · intro status body resp n h
    rw [convert_url] at h
    cases hr : raise_for_status status with
    | error e => rw [hr] at h; exact Except.noConfusion h
    | ok u =>
        rw [hr] at h
        cases hp : process_gz_content body with
        | error e => rw [hp] at h; exact Except.noConfusion h
        | ok r =>
            rw [hp] at h
            have h2 := Except.ok.inj h
            have hresp : resp = ⟨r.output_file, true, "jobs.xlsx"⟩ :=
              (congrArg Prod.fst h2).symm
            rw [hresp]
            exact ⟨process_ok_output_file body r hp, rfl, rfl⟩
  · intro body resp n h
    rw [convert_file] at h
    cases hp : process_gz_content body with
    | error e => rw [hp] at h; exact Except.noConfusion h
    | ok r =>
        rw [hp] at h
        have h2 := Except.ok.inj h
        have hresp : resp = ⟨r.output_file, true, "jobs.xlsx"⟩ :=
          (congrArg Prod.fst h2).symm
        rw [hresp]
        exact ⟨process_ok_output_file body r hp, rfl, rfl⟩

/-- Claim C8 (witness): the theorem applied to concrete successful calls of
both entry points. -/
theorem claim8_witness :
    ∃ resp : SendFileResponse,
      convert_url 200 (GzBytes.gzipUtf8 (XmlText.wellFormed sampleRoot))
          = Except.ok (resp, 2) ∧
      convert_file (GzBytes.gzipUtf8 (XmlText.wellFormed sampleRoot))
          = Except.ok (resp, 2) ∧
      resp.path = "jobs_output.xlsx" ∧ resp.download_name = "jobs.xlsx" ∧
      resp.as_attachment = true := by
  refine ⟨⟨"jobs_output.xlsx", true, "jobs.xlsx"⟩, rfl, rfl, ?_⟩
  exact claim8_fixed_output_path.1 200 (GzBytes.gzipUtf8 (XmlText.wellFormed sampleRoot))
    ⟨"jobs_output.xlsx", true, "jobs.xlsx"⟩ 2 rfl

/-- Claim C9 (counterexample): status 304 is not a 2xx status, yet
`response.raise_for_status()` raises only for 4xx/5xx, so the conversion
proceeds and succeeds instead of yielding a fetch error. -/
theorem claim9_counterexample :
    ¬ (200 ≤ 304 ∧ 304 < 300) ∧
    convert_url 304 (GzBytes.gzipUtf8 (XmlText.wellFormed noJobsDoc))
      = Except.ok ({ path := "jobs_output.xlsx", as_attachment := true,
                     download_name := "jobs.xlsx" }, 0) :=
  ⟨by decide, rfl⟩

/-- Claim C9 (amended): every HTTP response with a 4xx or 5xx status yields
an HTTP fetch error distinguishable from the decompression, encoding and
parse error kinds; for every other status the byte body is passed on to the
extractor, whose outcome is returned unchanged. -/
theorem claim9_fetch_error :
    (∀ (status : Nat) (body : GzBytes), 400 ≤ status → status < 600 →
        convert_url status body = Except.error (PyError.httpError status)) ∧
    (∀ (status : Nat) (body : GzBytes), ¬ (400 ≤ status ∧ status < 600) →
        convert_url status body
          = Except.map (fun r => (SendFileResponse.mk r.output_file true "jobs.xlsx",
              r.job_count)) (process_gz_content body)) ∧
    (∀ s : Nat, PyError.httpError s ≠ PyError.badGzipFile ∧
        PyError.httpError s ≠ PyError.unicodeDecodeError ∧
        PyError.httpError s ≠ PyError.parseError) := by
  refine ⟨fun status body h1 h2 => ?_, fun status body h => ?_, fun s => ?_⟩
  · rw [convert_url, raise_for_status, if_pos ⟨h1, h2⟩]
    rfl
  · rw [convert_url, raise_for_status, if_neg h]
    cases process_gz_content body <;> rfl
  · exact ⟨fun h => PyError.noConfusion h, fun h => PyError.noConfusion h,
      fun h => PyError.noConfusion h⟩

/-- Claim C9 (witness): the amended theorem applied to a 404 response, to a
204 response, and to the error-kind distinction at status 404. -/
theorem claim9_witness :
    convert_url 404 (GzBytes.notGzip []) = Except.error (PyError.httpError 404) ∧
    convert_url 204 (GzBytes.notGzip [])
      = Except.map (fun r => (SendFileResponse.mk r.output_file true "jobs.xlsx",
          r.job_count)) (process_gz_content (GzBytes.notGzip [])) ∧
    PyError.httpError 404 ≠ PyError.badGzipFile :=
  ⟨claim9_fetch_error.1 404 (GzBytes.notGzip []) (by decide) (by decide),
    claim9_fetch_error.2.1 204 (GzBytes.notGzip []) (by decide),
    (claim9_fetch_error.2.2 404).1⟩

/-- Claim C10: with the shared constant output path, the schedule
A-writes, B-writes, A-reads, B-reads — a legal interleaving of two
conversions, each writing its spreadsheet before serving it — leaves
caller A holding the table built from caller B's different input, so
simultaneous conversions DO cross-contaminate: the isolation property
fails on this code. -/
theorem claim10_race :
    writtenTable (GzBytes.gzipUtf8 (XmlText.wellFormed sampleRoot))
      ≠ writtenTable (GzBytes.gzipUtf8 (XmlText.wellFormed dupSalaryDoc)) ∧
    (runConversions (GzBytes.gzipUtf8 (XmlText.wellFormed sampleRoot))
        (GzBytes.gzipUtf8 (XmlText.wellFormed dupSalaryDoc))
        [ConvStep.writeA, ConvStep.writeB, ConvStep.sendA, ConvStep.sendB]).respA
      = writtenTable (GzBytes.gzipUtf8 (XmlText.wellFormed dupSalaryDoc)) ∧
    (runConversions (GzBytes.gzipUtf8 (XmlText.wellFormed sampleRoot))
        (GzBytes.gzipUtf8 (XmlText.wellFormed dupSalaryDoc))
        [ConvStep.writeA, ConvStep.writeB, ConvStep.sendA, ConvStep.sendB]).respA
      ≠ writtenTable (GzBytes.gzipUtf8 (XmlText.wellFormed sampleRoot)) :=
  ⟨by decide, rfl, by decide⟩

end JobConverter
